import Mathlib

/-!
Verification development for the adaptive cycle detector.

The Python sources are shallowly embedded:
* `detection.py` (`detect_cycles`) together with the peak-picking primitive
  `scipy.signal.find_peaks` (local maxima with plateau midpoints, a minimum
  height filter and a greedy minimum-distance selection) are embedded over
  `List ℚ` signals with `Nat` sample indices.
* `cycles_utils.py` (`prepare_data_for_cycle_detection`, `np.gradient`,
  `smooth_data_low_pass` built on `scipy.signal.butter`/`filtfilt`) is
  embedded with the Butterworth coefficient computation kept as a parameter,
  because `butter` computes its coefficients with transcendental floating
  point arithmetic; every structural property (error conditions, lengths)
  is independent of the concrete coefficient values.
* `cli.py` (`main`'s per-record workflow) is embedded as a step function over
  a persistence state and an operator-input stream.

Python floats are modelled as rationals and Python exceptions as explicit
`Except` error values.
-/

namespace CycleDetector

/-- The `ValueError`s that `detect_cycles` (detection.py) can raise, plus the
`ValueError` raised inside `scipy.signal.find_peaks` when the converted
minimum distance is below one sample.  All of them are `ValueError` in
Python; they are distinguished here by their message. -/
inductive DetectErr
  | missingColumn (col : String)
  | distanceTooSmall
  | noCyclesDetected
deriving DecidableEq, Repr

/-- The `pattern` parameter of `detect_cycles` (validated against
`['on_peak', 'between_peak', 'both']`). -/
inductive Pattern
  | on_peak
  | between_peak
  | both
deriving DecidableEq, Repr

/-- The `signal` parameter of `detect_cycles` (validated against
`['position', 'velocity', 'abs_velocity']`). -/
inductive SignalKind
  | position
  | velocity
  | abs_velocity
deriving DecidableEq, Repr

/-- A prepared data table as consumed by `detect_cycles`: an optional
`Position` column and an optional `Velocity` column. -/
structure DataFrame where
  position? : Option (List ℚ) := none
  velocity? : Option (List ℚ) := none

/-- Python's `int(...)` applied to a float: truncation toward zero. -/
def truncInt (q : ℚ) : Int := if 0 ≤ q then q.floor else q.ceil

/-- Column selection of `detect_cycles` (detection.py lines 43-55):
`position` and `velocity` are read as-is, `abs_velocity` is the element-wise
absolute value of the `Velocity` column; a missing column raises
`ValueError("Data must contain a '...' column.")`. -/
def selectSignal (data : DataFrame) : SignalKind → Except DetectErr (List ℚ)
  | .position =>
    match data.position? with
    | some s => .ok s
    | none => .error (.missingColumn "Position")
  | .velocity =>
    match data.velocity? with
    | some s => .ok s
    | none => .error (.missingColumn "Velocity")
  | .abs_velocity =>
    match data.velocity? with
    | some s => .ok (s.map (fun v => |v|))
    | none => .error (.missingColumn "Velocity")

/-- Plateau scan of `scipy.signal._peak_finding_utils._local_maxima_1d`,
with the number of remaining steps made explicit so the function is
structurally recursive (`x.length - l` steps always suffice). -/
def runEndAux (x : List ℚ) : Nat → Nat → Nat
  | 0, l => l
  | fuel + 1, l =>
    if l + 1 < x.length ∧ x.getD (l + 1) 0 = x.getD l 0 then runEndAux x fuel (l + 1) else l

/-- End of the constant run (plateau) of `x` starting at `l`: the largest
`r ≥ l` such that `x` is constant on `[l, r]` (and `r` stays inside `x`).
This is the plateau scan of `scipy.signal._peak_finding_utils._local_maxima_1d`. -/
def runEnd (x : List ℚ) (l : Nat) : Nat := runEndAux x (x.length - l) l

/-- `l` opens a (plateau) local maximum of `x` in the sense of
`_local_maxima_1d`: the sample before `l` is strictly lower, and the sample
just after the plateau ending at `runEnd x l` exists and is strictly lower.
The first and last samples can never qualify. -/
def isPeakStart (x : List ℚ) (l : Nat) : Bool :=
  decide (0 < l) && decide (x.getD (l - 1) 0 < x.getD l 0) &&
    decide (runEnd x l + 1 < x.length) &&
    decide (x.getD (runEnd x l + 1) 0 < x.getD l 0)

/-- All local maxima of `x` as found by
`scipy.signal._peak_finding_utils._local_maxima_1d`: for each maximal
plateau `[l, r]` with a strict rise before `l` and a strict fall after `r`,
the midpoint `(l + r) / 2` (integer division). -/
def localMaxima (x : List ℚ) : List Nat :=
  (List.range x.length).filterMap fun l =>
    if isPeakStart x l then some ((l + runEnd x l) / 2) else none

/-- Distance between two sample indices. -/
def peakSep (a b : Nat) : Nat := max a b - min a b

/-- One kill sweep of `scipy.signal._peak_finding_utils._select_by_peak_distance`:
peak position `j` (still kept) removes every other candidate closer than `d`
samples.  On the sorted candidate array the two inner while-loops of the
scipy source remove exactly the candidates within distance `< d` on either
side of `j`, which is what this pointwise form expresses. -/
def killNear (peaks : List Nat) (d : Nat) (keep : Nat → Bool) (j : Nat) : Nat → Bool :=
  fun k => if k ≠ j ∧ peakSep (peaks.getD k 0) (peaks.getD j 0) < d then false else keep k

/-- One iteration of the priority loop of `_select_by_peak_distance`:
a candidate that has already been removed is skipped. -/
def distStep (peaks : List Nat) (d : Nat) (keep : Nat → Bool) (j : Nat) : Nat → Bool :=
  if keep j then killNear peaks d keep j else keep

/-- The final keep flags after processing the candidate positions in the
given priority order (highest priority first). -/
def distKeep (peaks : List Nat) (d : Nat) (order : List Nat) : Nat → Bool :=
  order.foldl (distStep peaks d) fun _ => true

/-- Candidate positions sorted by priority (signal height at the peak)
in decreasing order; scipy obtains this order from `np.argsort` of the
priorities and walks it from the back. -/
def processOrder (x : List ℚ) (peaks : List Nat) : List Nat :=
  (List.range peaks.length).mergeSort fun i j =>
    decide (x.getD (peaks.getD j 0) 0 < x.getD (peaks.getD i 0) 0) ||
      (decide (x.getD (peaks.getD i 0) 0 = x.getD (peaks.getD j 0) 0) && decide (i ≤ j))

/-- `scipy.signal._peak_finding_utils._select_by_peak_distance`: greedily keep
peaks from the highest priority downwards, removing every remaining candidate
closer than `d` samples to a kept peak; return the kept peaks in index order. -/
def selectByPeakDistance (x : List ℚ) (peaks : List Nat) (d : Nat) : List Nat :=
  ((List.range peaks.length).filter (distKeep peaks d (processOrder x peaks))).map
    fun i => peaks.getD i 0

/-- `scipy.signal.find_peaks x (height := h) (distance := d)` as called by
`detect_cycles`: reject `distance < 1` up front
(`ValueError("'distance' must be greater or equal to 1")`), find the local
maxima, keep those of height `≥ h`, then apply the minimum-distance
selection with `ceil d = d` samples (`d` is an integer here). -/
def find_peaks (x : List ℚ) (height : ℚ) (distance : Int) : Except DetectErr (List Nat) :=
  if distance < 1 then .error .distanceTooSmall
  else
    let mids := (localMaxima x).filter fun m => decide (height ≤ x.getD m 0)
    .ok (selectByPeakDistance x mids distance.toNat)

/-- Trough computation of `detect_cycles` (detection.py lines 87-92): for every
pair of consecutive peaks, the integer-truncated mean of the two indices. -/
def troughsOf (ps : List Nat) : List Nat :=
  (ps.zip ps.tail).map fun p => (p.1 + p.2) / 2

/-- The merged, sorted peak-and-trough sequence of `detect_cycles`
(detection.py lines 61-95) before the boundary indices are injected:
the `on_peak` contribution when `pattern ∈ {on_peak, both}`, the
`between_peak` contribution (troughs of a recomputed peak set) when
`pattern ∈ {between_peak, both}`, concatenated and sorted (`np.sort`). -/
def mergedIndices (sd : List ℚ) (threshold : ℚ) (min_distance : Int) (pattern : Pattern) :
    Except DetectErr (List Nat) := do
  let peaks ←
    if pattern = .on_peak ∨ pattern = .both then
      find_peaks sd threshold min_distance
    else pure []
  let troughs ←
    if pattern = .between_peak ∨ pattern = .both then do
      let peaks_for_troughs ← find_peaks sd threshold min_distance
      pure (troughsOf peaks_for_troughs)
    else pure []
  pure ((peaks ++ troughs).mergeSort)

/-- `detect_cycles` (detection.py): select the signal series, convert the
distance in seconds to a minimum sample separation with `int(distance * fs)`,
compute the merged peak/trough sequence, raise
`ValueError("No cycles detected. ...")` if it is empty, and otherwise
prepend index `0` and append index `len(signal_data) - 1`. -/
def detect_cycles (data : DataFrame) (threshold : ℚ) (distance : ℚ)
    (pattern : Pattern) (signal : SignalKind) (fs : ℚ) : Except DetectErr (List Nat) := do
  let signal_data ← selectSignal data signal
  let min_distance := truncInt (distance * fs)
  let sep ← mergedIndices signal_data threshold min_distance pattern
  if sep = [] then .error .noCyclesDetected
  else pure (0 :: (sep ++ [signal_data.length - 1]))

/-! ### Properties of the plateau scan -/

theorem runEndAux_ge (x : List ℚ) : ∀ fuel l, l ≤ runEndAux x fuel l := by
  intro fuel
  induction fuel with
  | zero => intro l; simp [runEndAux]
  | succ n ih =>
    intro l
    simp only [runEndAux]
    split
    · exact Nat.le_trans (Nat.le_succ l) (ih (l + 1))
    · exact Nat.le_refl l

theorem runEnd_ge (x : List ℚ) (l : Nat) : l ≤ runEnd x l :=
  runEndAux_ge x _ l

theorem runEndAux_lt_length (x : List ℚ) :
    ∀ fuel l, l < x.length → runEndAux x fuel l < x.length := by
  intro fuel
  induction fuel with
  | zero => intro l hl; simpa [runEndAux] using hl
  | succ n ih =>
    intro l hl
    simp only [runEndAux]
    split
    · next h => exact ih (l + 1) h.1
    · exact hl

theorem runEnd_lt_length (x : List ℚ) (l : Nat) (hl : l < x.length) :
    runEnd x l < x.length :=
  runEndAux_lt_length x _ l hl

theorem runEndAux_eq_on (x : List ℚ) :
    ∀ fuel l j, l ≤ j → j ≤ runEndAux x fuel l → x.getD j 0 = x.getD l 0 := by
  intro fuel
  induction fuel with
  | zero =>
    intro l j h1 h2
    simp only [runEndAux] at h2
    have : j = l := Nat.le_antisymm h2 h1
    rw [this]
  | succ n ih =>
    intro l j h1 h2
    simp only [runEndAux] at h2
    split at h2
    · next h =>
      rcases Nat.eq_or_lt_of_le h1 with rfl | hlt
      · rfl
      · have := ih (l + 1) j hlt h2
        rw [this, h.2]
    · next h =>
      have : j = l := Nat.le_antisymm h2 h1
      rw [this]

theorem runEnd_eq_on (x : List ℚ) (l j : Nat) (h1 : l ≤ j) (h2 : j ≤ runEnd x l) :
    x.getD j 0 = x.getD l 0 :=
  runEndAux_eq_on x _ l j h1 h2

/-! ### Properties of the local-maxima scan -/

theorem isPeakStart_spec {x : List ℚ} {l : Nat} (h : isPeakStart x l = true) :
    0 < l ∧ x.getD (l - 1) 0 < x.getD l 0 ∧ runEnd x l + 1 < x.length ∧
      x.getD (runEnd x l + 1) 0 < x.getD l 0 := by
  simp only [isPeakStart, Bool.and_eq_true, decide_eq_true_eq] at h
  exact ⟨h.1.1.1, h.1.1.2, h.1.2, h.2⟩

/-- Two distinct plateau starts are separated by at least two samples
(`l₂ ≥ r₁ + 2`), hence distinct local maxima midpoints differ by at least 2. -/
theorem peakStart_gap {x : List ℚ} {l₁ l₂ : Nat}
    (h₁ : isPeakStart x l₁ = true) (h₂ : isPeakStart x l₂ = true) (hlt : l₁ < l₂) :
    (l₁ + runEnd x l₁) / 2 + 2 ≤ (l₂ + runEnd x l₂) / 2 := by
  obtain ⟨hl₁pos, hrise₁, hr₁lt, hfall₁⟩ := isPeakStart_spec h₁
  obtain ⟨hl₂pos, hrise₂, _hr₂lt, _hfall₂⟩ := isPeakStart_spec h₂
  have hr₁ : l₁ ≤ runEnd x l₁ := runEnd_ge x l₁
  have hr₂ : l₂ ≤ runEnd x l₂ := runEnd_ge x l₂
  -- step 1: `l₂` lies strictly beyond the plateau `[l₁, runEnd x l₁]` and
  -- beyond its immediate successor.
  have hstep : runEnd x l₁ + 2 ≤ l₂ := by
    by_contra hcon
    have hle : l₂ ≤ runEnd x l₁ + 1 := by omega
    rcases Nat.eq_or_lt_of_le hle with heq | hlt2
    · -- `l₂ = runEnd x l₁ + 1`: the sample before `l₂` has the plateau value,
      -- the sample at `l₂` is strictly below it, contradicting the rise at `l₂`.
      have hprev : x.getD (l₂ - 1) 0 = x.getD l₁ 0 := by
        have : l₂ - 1 = runEnd x l₁ := by omega
        rw [this]
        exact runEnd_eq_on x l₁ (runEnd x l₁) hr₁ (Nat.le_refl _)
      have hcur : x.getD l₂ 0 < x.getD l₁ 0 := by
        have : l₂ = runEnd x l₁ + 1 := heq
        rw [this]; exact hfall₁
      rw [hprev] at hrise₂
      exact absurd (lt_trans hrise₂ hcur) (lt_irrefl _)
    · -- `l₂ ≤ runEnd x l₁`: both `l₂ - 1` and `l₂` carry the plateau value,
      -- contradicting the strict rise at `l₂`.
      have hle₂ : l₂ ≤ runEnd x l₁ := by omega
      have hv₂ : x.getD l₂ 0 = x.getD l₁ 0 :=
        runEnd_eq_on x l₁ l₂ (Nat.le_of_lt hlt) hle₂
      have hv₁ : x.getD (l₂ - 1) 0 = x.getD l₁ 0 :=
        runEnd_eq_on x l₁ (l₂ - 1) (by omega) (by omega)
      rw [hv₁, hv₂] at hrise₂
      exact absurd hrise₂ (lt_irrefl _)
  omega

theorem localMaxima_pairwise (x : List ℚ) :
    (localMaxima x).Pairwise (fun a b => a + 2 ≤ b) := by
  unfold localMaxima
  rw [List.pairwise_filterMap]
  have := List.pairwise_lt_range x.length
  refine this.imp ?_
  intro l₁ l₂ hlt m₁ hm₁ m₂ hm₂
  by_cases h₁ : isPeakStart x l₁ = true
  · by_cases h₂ : isPeakStart x l₂ = true
    · simp only [h₁, h₂, if_pos, Option.mem_def, Option.some.injEq] at hm₁ hm₂
      subst hm₁; subst hm₂
      exact peakStart_gap h₁ h₂ hlt
    · simp [h₂] at hm₂
  · simp [h₁] at hm₁

theorem localMaxima_bounds {x : List ℚ} {m : Nat} (hm : m ∈ localMaxima x) :
    1 ≤ m ∧ m + 1 < x.length := by
  unfold localMaxima at hm
  rw [List.mem_filterMap] at hm
  obtain ⟨l, _hl, hf⟩ := hm
  by_cases h : isPeakStart x l = true
  · simp only [h, if_pos, Option.some.injEq] at hf
    obtain ⟨hlpos, _, hrlt, _⟩ := isPeakStart_spec h
    have hr : l ≤ runEnd x l := runEnd_ge x l
    omega
  · simp [h] at hf

/-! ### Properties of the minimum-distance selection -/

theorem map_getD_range (l : List Nat) : (List.range l.length).map (fun i => l.getD i 0) = l := by
  apply List.ext_getElem
  · simp
  · intro n h₁ h₂
    simp only [List.getElem_map, List.getElem_range]
    exact List.getD_eq_getElem l 0 h₂

theorem selectByPeakDistance_sublist (x : List ℚ) (peaks : List Nat) (d : Nat) :
    (selectByPeakDistance x peaks d).Sublist peaks := by
  unfold selectByPeakDistance
  have h₁ : ((List.range peaks.length).filter
      (distKeep peaks d (processOrder x peaks))).Sublist (List.range peaks.length) :=
    List.filter_sublist _
  have h₂ := h₁.map (fun i => peaks.getD i 0)
  rwa [map_getD_range] at h₂

/-- Every candidate position occurs in the priority order. -/
theorem mem_processOrder {x : List ℚ} {peaks : List Nat} {i : Nat}
    (h : i < peaks.length) : i ∈ processOrder x peaks := by
  unfold processOrder
  rw [(List.mergeSort_perm _ _).mem_iff]
  exact List.mem_range.mpr h

/-- Kill sweeps only ever clear keep flags. -/
theorem killNear_le {peaks : List Nat} {d : Nat} {keep : Nat → Bool} {j k : Nat}
    (h : killNear peaks d keep j k = true) : keep k = true := by
  unfold killNear at h
  split at h
  · exact absurd h (by simp)
  · exact h

theorem distStep_le {peaks : List Nat} {d : Nat} {keep : Nat → Bool} {j k : Nat}
    (h : distStep peaks d keep j k = true) : keep k = true := by
  unfold distStep at h
  split at h
  · exact killNear_le h
  · exact h

theorem foldl_distStep_le {peaks : List Nat} {d : Nat} :
    ∀ (order : List Nat) (keep : Nat → Bool) (k : Nat),
      order.foldl (distStep peaks d) keep k = true → keep k = true := by
  intro order
  induction order with
  | nil => intro keep k h; exact h
  | cons o rest ih =>
    intro keep k h
    simp only [List.foldl_cons] at h
    exact distStep_le (ih _ _ h)

/-- Core invariant of `_select_by_peak_distance`: two distinct candidate
positions that both survive the whole priority sweep cannot be closer than
`d` samples, because the one processed first (while still kept) would have
removed the other. -/
theorem foldl_distStep_not_close {peaks : List Nat} {d : Nat} :
    ∀ (order : List Nat) (keep : Nat → Bool) (j k : Nat), j ∈ order →
      order.foldl (distStep peaks d) keep j = true →
      order.foldl (distStep peaks d) keep k = true →
      k ≠ j → ¬ peakSep (peaks.getD k 0) (peaks.getD j 0) < d := by
  intro order
  induction order with
  | nil => intro keep j k hj; exact absurd hj (List.not_mem_nil j)
  | cons o rest ih =>
    intro keep j k hj hjkeep hkkeep hne hclose
    simp only [List.foldl_cons] at hjkeep hkkeep
    by_cases hjr : j ∈ rest
    · exact ih _ j k hjr hjkeep hkkeep hne hclose
    · have hjo : j = o := by
        rcases List.mem_cons.mp hj with h | h
        · exact h
        · exact absurd h hjr
      subst hjo
      by_cases hkj : keep j = true
      · -- `j` is processed while kept: it kills `k`, so `k` cannot survive.
        have hstep : distStep peaks d keep j = killNear peaks d keep j := by
          unfold distStep; rw [if_pos hkj]
        rw [hstep] at hkkeep
        have hk' : killNear peaks d keep j k = true := foldl_distStep_le rest _ k hkkeep
        unfold killNear at hk'
        rw [if_pos ⟨hne, hclose⟩] at hk'
        exact absurd hk' (by simp)
      · -- `j` was already removed before being processed, so it cannot survive.
        have hstep : distStep peaks d keep j = keep := by
          unfold distStep; rw [if_neg hkj]
        rw [hstep] at hjkeep
        exact hkj (foldl_distStep_le rest _ j hjkeep)

/-- The peaks kept by the minimum-distance selection are pairwise at least
`d` samples apart (for a sorted candidate list). -/
theorem selectByPeakDistance_pairwise {x : List ℚ} {peaks : List Nat} {d : Nat}
    (hsorted : peaks.Pairwise (· < ·)) :
    (selectByPeakDistance x peaks d).Pairwise (fun a b => a + d ≤ b) := by
  unfold selectByPeakDistance
  rw [List.pairwise_map]
  have hfil : ((List.range peaks.length).filter
      (distKeep peaks d (processOrder x peaks))).Pairwise (· < ·) :=
    List.Pairwise.sublist (List.filter_sublist _) (List.pairwise_lt_range _)
  refine List.Pairwise.imp_of_mem ?_ hfil
  intro i j hi hj hij
  have hi' := List.mem_filter.mp hi
  have hj' := List.mem_filter.mp hj
  have hilen : i < peaks.length := List.mem_range.mp hi'.1
  have hjlen : j < peaks.length := List.mem_range.mp hj'.1
  have hsep : ¬ peakSep (peaks.getD i 0) (peaks.getD j 0) < d :=
    foldl_distStep_not_close _ _ j i (mem_processOrder hjlen) hj'.2 hi'.2 (by omega)
  have hmono : peaks.getD i 0 < peaks.getD j 0 := by
    rw [List.getD_eq_getElem peaks 0 hilen, List.getD_eq_getElem peaks 0 hjlen]
    exact List.pairwise_iff_getElem.mp hsorted i j hilen hjlen hij
  unfold peakSep at hsep
  omega

/-! ### Properties of `find_peaks` -/

theorem find_peaks_ok {x : List ℚ} {h : ℚ} {d : Int} {ps : List Nat}
    (hfp : find_peaks x h d = .ok ps) :
    1 ≤ d ∧ ps = selectByPeakDistance x
      ((localMaxima x).filter fun m => decide (h ≤ x.getD m 0)) d.toNat := by
  unfold find_peaks at hfp
  split at hfp
  · exact absurd hfp (by simp)
  · next hd => exact ⟨by omega, by injection hfp with h'; exact h'.symm⟩

theorem find_peaks_error {x : List ℚ} {h : ℚ} {d : Int}
    (hd : d < 1) : find_peaks x h d = .error .distanceTooSmall := by
  unfold find_peaks
  rw [if_pos hd]

theorem find_peaks_sublist {x : List ℚ} {h : ℚ} {d : Int} {ps : List Nat}
    (hfp : find_peaks x h d = .ok ps) : ps.Sublist (localMaxima x) := by
  obtain ⟨-, hps⟩ := find_peaks_ok hfp
  rw [hps]
  exact (selectByPeakDistance_sublist _ _ _).trans (List.filter_sublist _)

theorem find_peaks_pairwise_gap {x : List ℚ} {h : ℚ} {d : Int} {ps : List Nat}
    (hfp : find_peaks x h d = .ok ps) : ps.Pairwise (fun a b => a + 2 ≤ b) :=
  List.Pairwise.sublist (find_peaks_sublist hfp) (localMaxima_pairwise x)

theorem find_peaks_sorted {x : List ℚ} {h : ℚ} {d : Int} {ps : List Nat}
    (hfp : find_peaks x h d = .ok ps) : ps.Pairwise (· < ·) :=
  (find_peaks_pairwise_gap hfp).imp (by omega)

theorem find_peaks_bounds {x : List ℚ} {h : ℚ} {d : Int} {ps : List Nat}
    (hfp : find_peaks x h d = .ok ps) {m : Nat} (hm : m ∈ ps) :
    1 ≤ m ∧ m + 1 < x.length :=
  localMaxima_bounds ((find_peaks_sublist hfp).subset hm)

/-- The distance constraint on the peaks returned by `find_peaks`: successive
kept peaks are at least `d` samples apart. -/
theorem find_peaks_separation {x : List ℚ} {h : ℚ} {d : Int} {ps : List Nat}
    (hfp : find_peaks x h d = .ok ps) : ps.Pairwise (fun a b => a + d.toNat ≤ b) := by
  obtain ⟨-, hps⟩ := find_peaks_ok hfp
  rw [hps]
  refine selectByPeakDistance_pairwise ?_
  refine List.Pairwise.sublist (List.filter_sublist _) ?_
  exact (localMaxima_pairwise x).imp (by omega)

/-! ### Properties of the trough computation -/

theorem troughsOf_length (ps : List Nat) : (troughsOf ps).length = ps.length - 1 := by
  unfold troughsOf
  rw [List.length_map, List.length_zip, List.length_tail]
  omega

theorem troughsOf_getElem (ps : List Nat) (i : Nat) (hi : i < (troughsOf ps).length)
    (hi1 : i + 1 < ps.length) :
    (troughsOf ps)[i] = (ps[i] + ps[i + 1]) / 2 := by
  unfold troughsOf
  unfold troughsOf at hi
  rw [List.getElem_map, List.getElem_zip, List.getElem_tail]

/-- Each trough lies strictly between the two peaks it is computed from
(peaks are at least 2 apart). -/
theorem troughsOf_between {ps : List Nat} (hgap : ps.Pairwise (fun a b => a + 2 ≤ b))
    (i : Nat) (hi : i < (troughsOf ps).length) (hi1 : i + 1 < ps.length) :
    ps[i] < (troughsOf ps)[i] ∧ (troughsOf ps)[i] < ps[i + 1] := by
  have hg : ps[i] + 2 ≤ ps[i + 1] :=
    List.pairwise_iff_getElem.mp hgap i (i + 1) (by omega) hi1 (by omega)
  rw [troughsOf_getElem ps i hi hi1]
  omega

theorem troughsOf_sorted {ps : List Nat} (hgap : ps.Pairwise (fun a b => a + 2 ≤ b)) :
    (troughsOf ps).Pairwise (· < ·) := by
  rw [List.pairwise_iff_getElem]
  intro i j hi hj hij
  have hjlen : j + 1 < ps.length := by rw [troughsOf_length] at hj; omega
  have hilen : i + 1 < ps.length := by omega
  have hjl : j < ps.length := by omega
  have h₁ := troughsOf_between hgap i hi hilen
  have h₂ := troughsOf_between hgap j hj hjlen
  have hmono : ps[i + 1] ≤ ps[j] := by
    rcases Nat.eq_or_lt_of_le (Nat.succ_le_of_lt hij) with heq | hlt
    · subst heq; exact Nat.le_refl _
    · have := List.pairwise_iff_getElem.mp hgap (i + 1) j hilen hjl hlt; omega
  omega

/-- No trough coincides with a peak: each trough is strictly between two
consecutive peaks of the sorted peak list. -/
theorem troughsOf_disjoint {ps : List Nat} (hgap : ps.Pairwise (fun a b => a + 2 ≤ b)) :
    ps.Disjoint (troughsOf ps) := by
  intro a hap hat
  obtain ⟨j, hj, hja⟩ := List.mem_iff_getElem.mp hap
  obtain ⟨i, hi, hia⟩ := List.mem_iff_getElem.mp hat
  have hilen : i + 1 < ps.length := by
    have := troughsOf_length ps; omega
  have hbet := troughsOf_between hgap i hi hilen
  have hmono : ∀ (u v : Nat) (hu : u < ps.length) (hv : v < ps.length), u ≤ v →
      ps[u] ≤ ps[v] := by
    intro u v hu hv huv
    rcases Nat.eq_or_lt_of_le huv with heq | hlt
    · exact le_of_eq (by congr 1)
    · have := List.pairwise_iff_getElem.mp hgap u v hu hv hlt; omega
  by_cases hji : j ≤ i
  · have := hmono j i hj (by omega) hji
    omega
  · have := hmono (i + 1) j hilen hj (by omega)
    omega

/-! ### Properties of the merged peak/trough sequence and of `detect_cycles` -/

theorem mergedIndices_ok {sd : List ℚ} {th : ℚ} {d : Int} {pat : Pattern} {sep : List Nat}
    (hm : mergedIndices sd th d pat = .ok sep) :
    ∃ ps, find_peaks sd th d = .ok ps ∧
      ((pat = .on_peak ∧ sep = ps.mergeSort) ∨
       (pat = .between_peak ∧ sep = (troughsOf ps).mergeSort) ∨
       (pat = .both ∧ sep = (ps ++ troughsOf ps).mergeSort)) := by
  cases pat with
  | on_peak =>
    unfold mergedIndices at hm
    cases hfp : find_peaks sd th d with
    | ok ps =>
      refine ⟨ps, rfl, Or.inl ⟨rfl, ?_⟩⟩
      simp [hfp, Except.instMonad, Except.bind, Except.pure] at hm
      exact hm.symm
    | error e => simp [hfp, Except.instMonad, Except.bind] at hm
  | between_peak =>
    unfold mergedIndices at hm
    cases hfp : find_peaks sd th d with
    | ok ps =>
      refine ⟨ps, rfl, Or.inr (Or.inl ⟨rfl, ?_⟩)⟩
      simp [hfp, Except.instMonad, Except.bind, Except.pure] at hm
      exact hm.symm
    | error e => simp [hfp, Except.instMonad, Except.bind, Except.pure] at hm
  | both =>
    unfold mergedIndices at hm
    cases hfp : find_peaks sd th d with
    | ok ps =>
      refine ⟨ps, rfl, Or.inr (Or.inr ⟨rfl, ?_⟩)⟩
      simp [hfp, Except.instMonad, Except.bind, Except.pure] at hm
      exact hm.symm
    | error e => simp [hfp, Except.instMonad, Except.bind] at hm

theorem find_peaks_error_eq {x : List ℚ} {h : ℚ} {d : Int} {e : DetectErr}
    (hfp : find_peaks x h d = .error e) : e = .distanceTooSmall := by
  unfold find_peaks at hfp
  split at hfp
  · injection hfp with h'; exact h'.symm
  · exact absurd hfp (by simp)

/-- The only error `mergedIndices` itself can surface is the `find_peaks`
minimum-distance error. -/
theorem mergedIndices_error {sd : List ℚ} {th : ℚ} {d : Int} {pat : Pattern} {e : DetectErr}
    (hm : mergedIndices sd th d pat = .error e) : e = .distanceTooSmall := by
  cases pat with
  | on_peak =>
    unfold mergedIndices at hm
    cases hfp : find_peaks sd th d with
    | ok ps => simp [hfp, Except.instMonad, Except.bind, Except.pure] at hm
    | error e' =>
      simp [hfp, Except.instMonad, Except.bind, Except.pure] at hm
      subst hm; exact find_peaks_error_eq hfp
  | between_peak =>
    unfold mergedIndices at hm
    cases hfp : find_peaks sd th d with
    | ok ps => simp [hfp, Except.instMonad, Except.bind, Except.pure] at hm
    | error e' =>
      simp [hfp, Except.instMonad, Except.bind, Except.pure] at hm
      subst hm; exact find_peaks_error_eq hfp
  | both =>
    unfold mergedIndices at hm
    cases hfp : find_peaks sd th d with
    | ok ps => simp [hfp, Except.instMonad, Except.bind, Except.pure] at hm
    | error e' =>
      simp [hfp, Except.instMonad, Except.bind, Except.pure] at hm
      subst hm; exact find_peaks_error_eq hfp

theorem pairwise_lt_nodup {l : List Nat} (h : l.Pairwise (· < ·)) : l.Nodup :=
  h.imp (fun hab => Nat.ne_of_lt hab)

theorem mergeSort_strictSorted {l : List Nat} (h : l.Nodup) :
    (l.mergeSort).Pairwise (· < ·) := by
  have hp := List.mergeSort_perm l (fun a b => decide (a ≤ b))
  have hs : List.Sorted (· ≤ ·) (l.mergeSort) := List.sorted_mergeSort' l
  exact List.Sorted.lt_of_le hs (hp.symm.nodup h)

/-- The merged peak/trough sequence is strictly ascending: peaks are
pairwise ≥ 2 samples apart, troughs lie strictly between consecutive peaks,
and the two families never collide. -/
theorem mergedIndices_strictSorted {sd : List ℚ} {th : ℚ} {d : Int} {pat : Pattern}
    {sep : List Nat} (hm : mergedIndices sd th d pat = .ok sep) :
    sep.Pairwise (· < ·) := by
  obtain ⟨ps, hfp, hcase⟩ := mergedIndices_ok hm
  have hgap := find_peaks_pairwise_gap hfp
  rcases hcase with ⟨-, rfl⟩ | ⟨-, rfl⟩ | ⟨-, rfl⟩
  · exact mergeSort_strictSorted (pairwise_lt_nodup (find_peaks_sorted hfp))
  · exact mergeSort_strictSorted (pairwise_lt_nodup (troughsOf_sorted hgap))
  · refine mergeSort_strictSorted (List.nodup_append.mpr ?_)
    exact ⟨pairwise_lt_nodup (find_peaks_sorted hfp),
      pairwise_lt_nodup (troughsOf_sorted hgap), troughsOf_disjoint hgap⟩

/-- Every entry of the merged sequence is an interior sample index:
at least 1 and at most `len - 2`. -/
theorem mergedIndices_bounds {sd : List ℚ} {th : ℚ} {d : Int} {pat : Pattern}
    {sep : List Nat} (hm : mergedIndices sd th d pat = .ok sep) :
    ∀ m ∈ sep, 1 ≤ m ∧ m + 1 < sd.length := by
  obtain ⟨ps, hfp, hcase⟩ := mergedIndices_ok hm
  have hgap := find_peaks_pairwise_gap hfp
  have htrough : ∀ t ∈ troughsOf ps, 1 ≤ t ∧ t + 1 < sd.length := by
    intro t ht
    obtain ⟨i, hi, rfl⟩ := List.mem_iff_getElem.mp ht
    have hilen : i + 1 < ps.length := by
      have := troughsOf_length ps; omega
    have hbet := troughsOf_between hgap i hi hilen
    have h₁ := find_peaks_bounds hfp (ps.getElem_mem (by omega : i < ps.length))
    have h₂ := find_peaks_bounds hfp (ps.getElem_mem hilen)
    omega
  have hpeak : ∀ m ∈ ps, 1 ≤ m ∧ m + 1 < sd.length := fun m hmp => find_peaks_bounds hfp hmp
  rcases hcase with ⟨-, rfl⟩ | ⟨-, rfl⟩ | ⟨-, rfl⟩ <;> intro m hmem <;>
    rw [(List.mergeSort_perm _ _).mem_iff] at hmem
  · exact hpeak m hmem
  · exact htrough m hmem
  · rcases List.mem_append.mp hmem with h | h
    · exact hpeak m h
    · exact htrough m h

/-- Structure of a successful `detect_cycles` call: a selected series, a
non-empty merged sequence, and the two injected boundary indices. -/
theorem detect_cycles_ok {data : DataFrame} {th dist fs : ℚ} {pat : Pattern}
    {sig : SignalKind} {out : List Nat}
    (h : detect_cycles data th dist pat sig fs = .ok out) :
    ∃ series sep, selectSignal data sig = .ok series ∧
      mergedIndices series th (truncInt (dist * fs)) pat = .ok sep ∧ sep ≠ [] ∧
      out = 0 :: (sep ++ [series.length - 1]) := by
  unfold detect_cycles at h
  cases hss : selectSignal data sig with
  | error e => simp [hss, Except.instMonad, Except.bind] at h
  | ok series =>
    cases hm : mergedIndices series th (truncInt (dist * fs)) pat with
    | error e => simp [hss, hm, Except.instMonad, Except.bind] at h
    | ok sep =>
      simp only [hss, hm, Except.instMonad, Except.bind, Except.pure] at h
      by_cases hnil : sep = []
      · rw [if_pos hnil] at h
        exact absurd h (by simp)
      · rw [if_neg hnil] at h
        injection h with h'
        exact ⟨series, sep, rfl, hm, hnil, h'.symm⟩

theorem mergedIndices_distanceTooSmall {sd : List ℚ} {th : ℚ} {d : Int}
    (hd : d < 1) (pat : Pattern) :
    mergedIndices sd th d pat = .error .distanceTooSmall := by
  have hfp : find_peaks sd th d = .error .distanceTooSmall := find_peaks_error hd
  cases pat <;> simp [mergedIndices, hfp, Except.instMonad, Except.bind, Except.pure]

/-! ## Claims -/

/-- C1: for every prepared data table and every parameter combination for
which `detect_cycles` returns without raising, the returned boundary
sequence is strictly ascending (sorted, duplicate-free), its first element
is 0, and its last element is `len(series) - 1` where `series` is the
selected signal series. -/
theorem claim_C1 {data : DataFrame} {th dist fs : ℚ} {pat : Pattern} {sig : SignalKind}
    {out : List Nat} (h : detect_cycles data th dist pat sig fs = .ok out) :
    out.Pairwise (· < ·) ∧ ∃ series, selectSignal data sig = .ok series ∧
      out.head? = some 0 ∧ out.getLast? = some (series.length - 1) := by
  obtain ⟨series, sep, hss, hm, hnil, rfl⟩ := detect_cycles_ok h
  have hsorted := mergedIndices_strictSorted hm
  have hbounds := mergedIndices_bounds hm
  have hlen : 3 ≤ series.length := by
    obtain ⟨m, hmem⟩ := List.exists_mem_of_ne_nil sep hnil
    have := hbounds m hmem
    omega
  refine ⟨?_, series, hss, rfl, ?_⟩
  · rw [List.pairwise_cons]
    constructor
    · intro b hb
      rcases List.mem_append.mp hb with hb | hb
      · have := hbounds b hb; omega
      · rcases List.mem_singleton.mp hb with rfl; omega
    · rw [List.pairwise_append]
      refine ⟨hsorted, List.pairwise_singleton _ _, ?_⟩
      intro a ha b hb
      rcases List.mem_singleton.mp hb with rfl
      have := hbounds a ha
      omega
  · rw [show (0 :: (sep ++ [series.length - 1])) = (0 :: sep) ++ [series.length - 1] from rfl]
    exact List.getLast?_concat _

/-- Witness for C1 at the Scenario-style input: signal `[0,1,0,1,0,1,0]`,
threshold `1/2`, distance 1 s, fs 1, pattern `both`, signal `position`,
where `detect_cycles` returns `[0,1,2,3,4,5,6]`. -/
theorem claim_C1_witness :
    ([0,1,2,3,4,5,6] : List Nat).Pairwise (· < ·) ∧ ∃ series,
      selectSignal ⟨some [0,1,0,1,0,1,0], none⟩ .position = .ok series ∧
      ([0,1,2,3,4,5,6] : List Nat).head? = some 0 ∧
      ([0,1,2,3,4,5,6] : List Nat).getLast? = some (series.length - 1) :=
  claim_C1 (show detect_cycles ⟨some [0,1,0,1,0,1,0], none⟩ (1/2) 1 .both .position 1 =
    .ok [0,1,2,3,4,5,6] by with_unfolding_all rfl)

/-- C2: `detect_cycles` raises the "No cycles detected" error if and only if
the merged peak-and-trough sequence is empty before the boundary indices are
injected; in particular, with pattern `between_peak` and fewer than 2
detected peaks, zero troughs are produced and the call fails even though a
peak above threshold exists (`find_peaks` returns `[1]` on `[0,1,0]`). -/
theorem claim_C2 :
    (∀ (data : DataFrame) (th dist fs : ℚ) (pat : Pattern) (sig : SignalKind)
      (series : List ℚ), selectSignal data sig = .ok series →
      (detect_cycles data th dist pat sig fs = .error .noCyclesDetected ↔
        mergedIndices series th (truncInt (dist * fs)) pat = .ok [])) ∧
    detect_cycles ⟨some [0,1,0], none⟩ (1/2) 1 .between_peak .position 1 =
      .error .noCyclesDetected ∧
    find_peaks [0,1,0] (1/2) (truncInt (1 * 1)) = .ok [1] := by
  refine ⟨?_, by with_unfolding_all rfl, by with_unfolding_all rfl⟩
  intro data th dist fs pat sig series hss
  unfold detect_cycles
  rw [hss]
  cases hm : mergedIndices series th (truncInt (dist * fs)) pat with
  | error e =>
    have he : e = .distanceTooSmall := mergedIndices_error hm
    subst he
    simp [Except.instMonad, Except.bind, hm]
  | ok sep =>
    by_cases hnil : sep = []
    · subst hnil
      simp [Except.instMonad, Except.bind, hm]
    · simp [Except.instMonad, Except.bind, Except.pure, hm, hnil]

/-- Witness for C2's universally quantified part, instantiated at signal
`[0,1,0]` with pattern `both`. -/
theorem claim_C2_witness :
    detect_cycles ⟨some [0,1,0], none⟩ 1 1 .both .position 1 = .error .noCyclesDetected ↔
      mergedIndices [0,1,0] 1 (truncInt (1 * 1)) .both = .ok [] :=
  claim_C2.1 _ _ _ _ _ _ _ (by with_unfolding_all rfl)

/-- C3: on `[0,1,0,1,0,1,0]` with threshold 0.5, distance 1 s, fs 1,
signal `position`, pattern `between_peak`, `detect_cycles` recomputes the
peak set `[1,3,5]`, produces the troughs `[2,4]` as integer-truncated means
of consecutive peaks, and returns `[0,2,4,6]` after boundary injection. -/
theorem claim_C3 :
    detect_cycles ⟨some [0,1,0,1,0,1,0], none⟩ (1/2) 1 .between_peak .position 1 =
      .ok [0,2,4,6] ∧
    find_peaks [0,1,0,1,0,1,0] (1/2) (truncInt (1 * 1)) = .ok [1,3,5] ∧
    troughsOf [1,3,5] = [2,4] := by
  refine ⟨?_, ?_, ?_⟩ <;> with_unfolding_all rfl

/-- C5: with pattern `on_peak`, the indices of a successful `detect_cycles`
call other than the injected `0` and `len - 1` are exactly the `find_peaks`
output, and any two of them are at least `int(distance * fs)` samples
apart. -/
theorem claim_C5 {data : DataFrame} {th dist fs : ℚ} {sig : SignalKind} {out : List Nat}
    (h : detect_cycles data th dist .on_peak sig fs = .ok out) :
    ∃ series ps, selectSignal data sig = .ok series ∧
      find_peaks series th (truncInt (dist * fs)) = .ok ps ∧
      (out.drop 1).dropLast = ps ∧
      ps.Pairwise (fun a b => a + (truncInt (dist * fs)).toNat ≤ b) := by
  obtain ⟨series, sep, hss, hm, hnil, rfl⟩ := detect_cycles_ok h
  obtain ⟨ps, hfp, hcase⟩ := mergedIndices_ok hm
  rcases hcase with ⟨-, rfl⟩ | ⟨hpat, -⟩ | ⟨hpat, -⟩
  · have hsep : ps.mergeSort (fun a b => decide (a ≤ b)) = ps :=
      List.mergeSort_eq_self ((find_peaks_sorted hfp).imp le_of_lt)
    refine ⟨series, ps, hss, hfp, ?_, find_peaks_separation hfp⟩
    rw [List.drop_succ_cons, List.drop_zero, hsep, List.dropLast_concat]
  · exact absurd hpat (by simp)
  · exact absurd hpat (by simp)

/-- Witness for C5: signal `[0,1,0,1,0,1,0]`, threshold `1/2`, distance 2 s,
fs 1, pattern `on_peak`; the returned boundary set is `[0,1,3,5,6]` and the
peak contribution `[1,3,5]` is pairwise ≥ 2 apart. -/
theorem claim_C5_witness :
    ∃ series ps, selectSignal ⟨some [0,1,0,1,0,1,0], none⟩ .position = .ok series ∧
      find_peaks series (1/2) (truncInt (2 * 1)) = .ok ps ∧
      (([0,1,3,5,6] : List Nat).drop 1).dropLast = ps ∧
      ps.Pairwise (fun a b => a + (truncInt ((2 : ℚ) * 1)).toNat ≤ b) :=
  claim_C5 (show detect_cycles ⟨some [0,1,0,1,0,1,0], none⟩ (1/2) 2 .on_peak .position 1 =
    .ok [0,1,3,5,6] by with_unfolding_all rfl)

/-- C10 (implicit): whenever the converted minimum distance
`int(distance * fs)` is below 1 sample, `detect_cycles` (for every pattern,
since all three call the peak-finding primitive) fails with the `find_peaks`
validation error, which is distinct from the spec's missing-column
(SchemaError) and no-cycles (DetectionError) failures; the spec states no
lower bound on the converted distance. -/
theorem claim_C10 {data : DataFrame} {th dist fs : ℚ} {pat : Pattern} {sig : SignalKind}
    {series : List ℚ} (hss : selectSignal data sig = .ok series)
    (hd : truncInt (dist * fs) < 1) :
    detect_cycles data th dist pat sig fs = .error .distanceTooSmall ∧
      (∀ c, DetectErr.distanceTooSmall ≠ .missingColumn c) ∧
      DetectErr.distanceTooSmall ≠ .noCyclesDetected := by
  have hm : mergedIndices series th (truncInt (dist * fs)) pat = .error .distanceTooSmall :=
    mergedIndices_distanceTooSmall hd pat
  refine ⟨?_, by intro c; simp, by simp⟩
  unfold detect_cycles
  rw [hss]
  simp [Except.instMonad, Except.bind, hm]

/-- Witness for C10: distance 0 (so `int(0 * 1) = 0 < 1`) on `[0,1,0]`. -/
theorem claim_C10_witness :
    detect_cycles ⟨some [0,1,0], none⟩ 1 0 .both .position 1 = .error .distanceTooSmall ∧
      (∀ c, DetectErr.distanceTooSmall ≠ .missingColumn c) ∧
      DetectErr.distanceTooSmall ≠ .noCyclesDetected :=
  claim_C10 (show selectSignal ⟨some [0,1,0], none⟩ .position = .ok [0,1,0]
      by with_unfolding_all rfl)
    (show truncInt ((0 : ℚ) * 1) < 1 by with_unfolding_all decide)

/-! ## Signal preparation (`cycles_utils.py`) -/

/-- A raw input table: named columns of rational samples. -/
structure RawTable where
  cols : List (String × List ℚ)

/-- Column lookup in a raw table (pandas `data[col]` / `col in data.columns`). -/
def lookupCol (t : RawTable) (name : String) : Option (List ℚ) :=
  t.cols.lookup name

/-- The exceptions that `prepare_data_for_cycle_detection` and its callees
can raise, distinguished by their origin:
* `positionColRequired` — `ValueError("Position column name must be provided ...")`;
* `positionColNotFound` — `ValueError("Position column '...' not found in data.")`;
* `gradientTooSmall` — numpy's `ValueError` from `np.gradient` on fewer than
  2 samples;
* `fsRequired` — `ValueError("Sampling frequency must be provided")`;
* `badCutoff` — scipy `butter`'s `ValueError` when the normalized cutoff is
  not strictly between 0 and 1;
* `inputTooShort` — scipy `filtfilt`'s `ValueError` when the input is not
  longer than the pad length;
* `velocityKeyError` — pandas `KeyError` at `prepared['Velocity']` when the
  velocity column was supplied and the gradient was therefore skipped. -/
inductive PrepErr
  | positionColRequired
  | positionColNotFound (name : String)
  | gradientTooSmall
  | fsRequired
  | badCutoff
  | inputTooShort
  | velocityKeyError
deriving DecidableEq, Repr

/-- Which of the errors the spec's taxonomy (§4.1, §7) classifies as
`ConfigurationError`: a bad or missing required parameter, including the
normalized-cutoff validation of the filter design. -/
def PrepErr.isConfiguration : PrepErr → Bool
  | .positionColRequired => true
  | .fsRequired => true
  | .badCutoff => true
  | _ => false

/-- Which of the errors the spec's taxonomy classifies as `SchemaError`:
an expected column is absent. -/
def PrepErr.isSchema : PrepErr → Bool
  | .positionColNotFound _ => true
  | _ => false

/-- `np.gradient` on a 1-d array: one-sided differences at the two ends,
central differences in the interior; fails on fewer than 2 samples. -/
def np_gradient (x : List ℚ) : Except PrepErr (List ℚ) :=
  if x.length < 2 then .error .gradientTooSmall
  else .ok ((List.range x.length).map fun i =>
    if i = 0 then x.getD 1 0 - x.getD 0 0
    else if i = x.length - 1 then x.getD i 0 - x.getD (i - 1) 0
    else (x.getD (i + 1) 0 - x.getD (i - 1) 0) / 2)

/-- The coefficients of a first-order digital filter as returned by
`scipy.signal.butter(1, wn)`: numerator `[b0, b1]` and denominator
`[1, a1]`.  The concrete values are computed by scipy with transcendental
floating-point arithmetic (a bilinear transform of tan), so the
coefficient computation is kept as a parameter of the embedding; all
verified properties are independent of the concrete values. -/
structure Coeffs where
  b0 : ℚ
  b1 : ℚ
  a1 : ℚ
deriving DecidableEq, Repr

/-- `scipy.signal.lfilter_zi` specialized to a first-order filter: the
steady-state initial condition, the solution of
`(1 + a1) * zi = b1 - a1 * b0`. -/
def lfilter_zi1 (c : Coeffs) : ℚ := (c.b1 - c.a1 * c.b0) / (1 + c.a1)

/-- `scipy.signal.lfilter` for a first-order filter (direct form II
transposed): `y[n] = b0*x[n] + z[n-1]`, `z[n] = b1*x[n] - a1*y[n]`. -/
def lfilter1 (c : Coeffs) : List ℚ → ℚ → List ℚ
  | [], _ => []
  | xi :: rest, z =>
    let y := c.b0 * xi + z
    y :: lfilter1 c rest (c.b1 * xi - c.a1 * y)

/-- `scipy.signal._arraytools.odd_ext`: odd reflection of the signal about
its end points, `n` samples on each side. -/
def odd_ext (x : List ℚ) (n : Nat) : List ℚ :=
  ((List.range n).map fun i => 2 * x.getD 0 0 - x.getD (n - i) 0) ++ x ++
    ((List.range n).map fun i => 2 * x.getD (x.length - 1) 0 - x.getD (x.length - 2 - i) 0)

/-- `scipy.signal.filtfilt` for a first-order filter with the default
settings used by `smooth_data_low_pass` (`padtype='odd'`,
`padlen = 3 * max(len(a), len(b)) = 6`, `method='pad'`): odd-extend,
filter forward with `zi * ext[0]`, filter the reversal with `zi * y[-1]`,
reverse back and strip the padding.  Fails when the input is not longer
than the pad length. -/
def filtfilt1 (c : Coeffs) (x : List ℚ) : Except PrepErr (List ℚ) :=
  if x.length ≤ 6 then .error .inputTooShort
  else
    let ext := odd_ext x 6
    let zi := lfilter_zi1 c
    let y1 := lfilter1 c ext (zi * ext.getD 0 0)
    let y2 := lfilter1 c y1.reverse (zi * y1.getD (y1.length - 1) 0)
    let y := y2.reverse
    .ok ((y.drop 6).take (y.length - 12))

/-- `smooth_data_low_pass` (cycles_utils.py): normalize the cutoff against
the Nyquist frequency, design a first-order low-pass Butterworth filter
(the coefficient computation `butter1` is a parameter of the embedding, see
`Coeffs`), and apply it forward-backward with `filtfilt`. -/
def smooth_data_low_pass (butter1 : ℚ → Except PrepErr Coeffs)
    (data : List ℚ) (cutoff fs : ℚ) : Except PrepErr (List ℚ) := do
  let nyquist := (1/2) * fs
  let normal_cutoff := cutoff / nyquist
  let c ← butter1 normal_cutoff
  filtfilt1 c data

/-- The prepared signal: smoothed `Position` and `Velocity` columns plus the
sampling frequency stored in `prepared.attrs['fs']`. -/
structure PreparedSignal where
  Position : List ℚ
  Velocity : List ℚ
  fs : ℚ
deriving DecidableEq, Repr

/-- `prepare_data_for_cycle_detection` (cycles_utils.py).  Order of effects
follows the source: empty-name check, column-presence check, velocity
gradient (only when no velocity column name was supplied), the `if fs:`
truthiness check (`None` and `0` are falsy, negative values pass), then
smoothing of `Position` followed by `Velocity`; when a velocity column name
was supplied the `Velocity` column was never created, so
`prepared['Velocity']` raises a `KeyError` at the final smoothing step. -/
def prepare_data_for_cycle_detection (butter1 : ℚ → Except PrepErr Coeffs)
    (data : RawTable) (fs : Option ℚ) (position_col velocity_col : String) :
    Except PrepErr PreparedSignal :=
  if position_col = "" then .error .positionColRequired
  else
    match lookupCol data position_col with
    | none => .error (.positionColNotFound position_col)
    | some pos => do
      let velRaw? ←
        if velocity_col = "" then do
          let g ← np_gradient pos
          pure (some g)
        else pure none
      let fsv ←
        match fs with
        | none => Except.error PrepErr.fsRequired
        | some q => if q = 0 then Except.error PrepErr.fsRequired else pure q
      let posS ← smooth_data_low_pass butter1 pos 2 fsv
      match velRaw? with
      | some vel => do
        let velS ← smooth_data_low_pass butter1 vel 2 fsv
        pure ⟨posS, velS, fsv⟩
      | none => Except.error PrepErr.velocityKeyError

/-- A reference coefficient computation used to instantiate witnesses: it
validates the normalized cutoff exactly as `scipy.signal.butter` does
(`0 < Wn < 1`); the coefficient values themselves are placeholders, which is
irrelevant to every verified property. -/
def butterRef (wn : ℚ) : Except PrepErr Coeffs :=
  if 0 < wn ∧ wn < 1 then .ok ⟨1, 0, 0⟩ else .error .badCutoff

theorem butterRef_invalid {wn : ℚ} (h : ¬(0 < wn ∧ wn < 1)) :
    butterRef wn = .error .badCutoff := by
  unfold butterRef
  rw [if_neg h]

/-! ### Length preservation of the preparation pipeline -/

theorem np_gradient_length {x g : List ℚ} (h : np_gradient x = .ok g) :
    g.length = x.length := by
  unfold np_gradient at h
  split at h
  · exact absurd h (by simp)
  · injection h with h'
    rw [← h', List.length_map, List.length_range]

theorem lfilter1_length (c : Coeffs) : ∀ (x : List ℚ) (z : ℚ),
    (lfilter1 c x z).length = x.length := by
  intro x
  induction x with
  | nil => intro z; rfl
  | cons xi rest ih =>
    intro z
    simp only [lfilter1, List.length_cons, ih]

theorem odd_ext_length (x : List ℚ) (n : Nat) :
    (odd_ext x n).length = x.length + 2 * n := by
  unfold odd_ext
  simp only [List.length_append, List.length_map, List.length_range]
  omega

theorem filtfilt1_length {c : Coeffs} {x y : List ℚ} (h : filtfilt1 c x = .ok y) :
    y.length = x.length := by
  unfold filtfilt1 at h
  split at h
  · exact absurd h (by simp)
  · next hlen =>
    injection h with h'
    have hext : (odd_ext x 6).length = x.length + 12 := by
      rw [odd_ext_length]
    rw [← h']
    simp only [List.length_take, List.length_drop, List.length_reverse,
      lfilter1_length, hext]
    omega

theorem smooth_data_low_pass_length {butter1 : ℚ → Except PrepErr Coeffs}
    {data y : List ℚ} {cutoff fs : ℚ}
    (h : smooth_data_low_pass butter1 data cutoff fs = .ok y) :
    y.length = data.length := by
  unfold smooth_data_low_pass at h
  dsimp only [] at h
  cases hb : butter1 (cutoff / (1 / 2 * fs)) with
  | error e => rw [hb] at h; exact absurd h (by simp [Except.instMonad, Except.bind])
  | ok c =>
    rw [hb] at h
    simp only [Except.instMonad, Except.bind] at h
    exact filtfilt1_length h

/-! ### Characterization of a successful `prepare` call -/

/-- A successful `prepare_data_for_cycle_detection` call: the velocity
column name was empty, the position column was found, the velocity is the
smoothed `np.gradient` of the position column, the position is the smoothed
position column, and the stored frequency is the (truthy) supplied one. -/
theorem prepare_ok {butter1 : ℚ → Except PrepErr Coeffs} {data : RawTable}
    {fs : Option ℚ} {pcol vcol : String} {p : PreparedSignal}
    (h : prepare_data_for_cycle_detection butter1 data fs pcol vcol = .ok p) :
    vcol = "" ∧ pcol ≠ "" ∧ ∃ pos grad fsv,
      lookupCol data pcol = some pos ∧ np_gradient pos = .ok grad ∧
      fs = some fsv ∧ fsv ≠ 0 ∧
      smooth_data_low_pass butter1 pos 2 fsv = .ok p.Position ∧
      smooth_data_low_pass butter1 grad 2 fsv = .ok p.Velocity ∧
      p.fs = fsv := by
  unfold prepare_data_for_cycle_detection at h
  split at h
  · exact absurd h (by simp)
  · next hpcol =>
    cases hlook : lookupCol data pcol with
    | none => rw [hlook] at h; exact absurd h (by simp)
    | some pos =>
      rw [hlook] at h
      dsimp only [] at h
      by_cases hv : vcol = ""
      · rw [if_pos hv] at h
        cases hg : np_gradient pos with
        | error e =>
          rw [hg] at h
          exact absurd h (by simp [Except.instMonad, Except.bind])
        | ok grad =>
          rw [hg] at h
          simp only [Except.instMonad, Except.bind, Except.pure] at h
          cases fs with
          | none => exact absurd h (by simp)
          | some q =>
            dsimp only [] at h
            by_cases hq : q = 0
            · rw [if_pos hq] at h
              exact absurd h (by simp)
            · rw [if_neg hq] at h
              cases hsp : smooth_data_low_pass butter1 pos 2 q with
              | error e => rw [hsp] at h; exact absurd h (by simp)
              | ok posS =>
                rw [hsp] at h
                cases hsv : smooth_data_low_pass butter1 grad 2 q with
                | error e => rw [hsv] at h; exact absurd h (by simp)
                | ok velS =>
                  rw [hsv] at h
                  injection h with h'
                  refine ⟨hv, hpcol, pos, grad, q, rfl, hg, rfl, hq, ?_, ?_, ?_⟩
                  · rw [hsp, ← h']
                  · rw [hsv, ← h']
                  · rw [← h']
      · rw [if_neg hv] at h
        simp only [Except.instMonad, Except.bind, Except.pure] at h
        cases fs with
        | none => exact absurd h (by simp)
        | some q =>
          dsimp only [] at h
          by_cases hq : q = 0
          · rw [if_pos hq] at h
            exact absurd h (by simp)
          · rw [if_neg hq] at h
            cases hsp : smooth_data_low_pass butter1 pos 2 q with
            | error e => rw [hsp] at h; exact absurd h (by simp)
            | ok posS =>
              rw [hsp] at h
              exact absurd h (by simp)

/-- C7: every call to `prepare` that returns a `PreparedSignal` had an empty
velocity column name (a non-empty one makes the call raise before
returning), and its `Velocity` series is the smoothed central-difference
gradient of the selected position column — never read from a column of the
input table. -/
theorem claim_C7 {butter1 : ℚ → Except PrepErr Coeffs} {data : RawTable}
    {fs : Option ℚ} {pcol vcol : String} {p : PreparedSignal}
    (h : prepare_data_for_cycle_detection butter1 data fs pcol vcol = .ok p) :
    vcol = "" ∧ ∃ pos grad fsv, lookupCol data pcol = some pos ∧
      np_gradient pos = .ok grad ∧ fs = some fsv ∧
      smooth_data_low_pass butter1 grad 2 fsv = .ok p.Velocity := by
  obtain ⟨hv, -, pos, grad, fsv, hlook, hg, hfs, -, -, hsv, -⟩ := prepare_ok h
  exact ⟨hv, pos, grad, fsv, hlook, hg, hfs, hsv⟩

/-- Witness for C7 at a concrete 7-sample table (`butterRef` supplies the
parameterized coefficient computation). -/
theorem claim_C7_witness :
    ("" : String) = "" ∧ ∃ pos grad fsv,
      lookupCol ⟨[("p", [0,0,0,0,0,0,0])]⟩ "p" = some pos ∧
      np_gradient pos = .ok grad ∧ (some (8 : ℚ) : Option ℚ) = some fsv ∧
      smooth_data_low_pass butterRef grad 2 fsv =
        .ok (PreparedSignal.mk [0,0,0,0,0,0,0] [0,0,0,0,0,0,0] 8).Velocity :=
  claim_C7 (show prepare_data_for_cycle_detection butterRef ⟨[("p", [0,0,0,0,0,0,0])]⟩
      (some 8) "p" "" = .ok ⟨[0,0,0,0,0,0,0], [0,0,0,0,0,0,0], 8⟩ by
    set_option maxRecDepth 4000 in with_unfolding_all rfl)

/-- C8: every `PreparedSignal` returned by `prepare` has
`len(Position) = len(Velocity)`: the gradient and the zero-phase filter are
length-preserving, so both smoothed series share the index space of the
input position column. -/
theorem claim_C8 {butter1 : ℚ → Except PrepErr Coeffs} {data : RawTable}
    {fs : Option ℚ} {pcol vcol : String} {p : PreparedSignal}
    (h : prepare_data_for_cycle_detection butter1 data fs pcol vcol = .ok p) :
    p.Position.length = p.Velocity.length := by
  obtain ⟨-, -, pos, grad, fsv, -, hg, -, -, hsp, hsv, -⟩ := prepare_ok h
  rw [smooth_data_low_pass_length hsp, smooth_data_low_pass_length hsv,
    np_gradient_length hg]

/-- Witness for C8 at the same concrete table as the C7 witness. -/
theorem claim_C8_witness :
    (PreparedSignal.mk [0,0,0,0,0,0,0] [0,0,0,0,0,0,0] 8).Position.length =
      (PreparedSignal.mk [0,0,0,0,0,0,0] [0,0,0,0,0,0,0] 8).Velocity.length :=
  claim_C8 (show prepare_data_for_cycle_detection butterRef ⟨[("p", [0,0,0,0,0,0,0])]⟩
      (some 8) "p" "" = .ok ⟨[0,0,0,0,0,0,0], [0,0,0,0,0,0,0], 8⟩ by
    set_option maxRecDepth 4000 in with_unfolding_all rfl)

/-- Counterexample to C6 as stated: on the one-row table `{"p": [1]}` with
sampling rate 0 (falsy, hence "not provided/≤ 0") the call does fail, but
with numpy's gradient shape error — raised before the sampling-rate check —
which the spec's taxonomy does not classify as a `ConfigurationError`. -/
theorem claim_C6_counterexample :
    prepare_data_for_cycle_detection butterRef ⟨[("p", [1])]⟩ (some 0) "p" "" =
      .error .gradientTooSmall ∧
    PrepErr.gradientTooSmall.isConfiguration = false :=
  ⟨by with_unfolding_all rfl, rfl⟩

/-- C6 (amended): `prepare` fails with the configuration error for an empty
position column name; with the schema error when the (non-empty) position
column is absent; and when the column is present **with at least two
samples**, a missing/zero sampling rate fails with the configuration error
"sampling frequency must be provided", and every strictly negative sampling
rate fails with the configuration error of the filter-design cutoff
validation (with fewer than two samples the gradient error fires first).
The coefficient computation is any function rejecting a normalized cutoff
outside `(0, 1)` the way `scipy.signal.butter` does. -/
theorem claim_C6 (butter1 : ℚ → Except PrepErr Coeffs)
    (hb : ∀ wn, ¬(0 < wn ∧ wn < 1) → butter1 wn = .error .badCutoff)
    (data : RawTable) (fs : Option ℚ) (pcol vcol : String) :
    (pcol = "" →
      prepare_data_for_cycle_detection butter1 data fs pcol vcol =
        .error .positionColRequired ∧ PrepErr.positionColRequired.isConfiguration = true) ∧
    (pcol ≠ "" → lookupCol data pcol = none →
      prepare_data_for_cycle_detection butter1 data fs pcol vcol =
        .error (.positionColNotFound pcol) ∧
        (PrepErr.positionColNotFound pcol).isSchema = true) ∧
    (∀ pos, pcol ≠ "" → lookupCol data pcol = some pos → 2 ≤ pos.length →
      (fs = none ∨ ∃ q, q ≤ 0 ∧ fs = some q) →
      ∃ e, prepare_data_for_cycle_detection butter1 data fs pcol vcol = .error e ∧
        e.isConfiguration = true) := by
  refine ⟨?_, ?_, ?_⟩
  · intro hpcol
    refine ⟨?_, rfl⟩
    unfold prepare_data_for_cycle_detection
    rw [if_pos hpcol]
  · intro hpcol hlook
    refine ⟨?_, rfl⟩
    unfold prepare_data_for_cycle_detection
    rw [if_neg hpcol, hlook]
  · intro pos hpcol hlook hlen hfs
    have hwn : ∀ q : ℚ, q < 0 → ¬(0 < 2 / (1 / 2 * q) ∧ 2 / (1 / 2 * q) < 1) := by
      intro q hneg hcon
      have h1 : (1 / 2 : ℚ) * q < 0 :=
        mul_neg_of_pos_of_neg (by norm_num) hneg
      have h2 : 2 / (1 / 2 * q) < 0 := div_neg_of_pos_of_neg (by norm_num) h1
      exact absurd hcon.1 (not_lt_of_gt h2)
    unfold prepare_data_for_cycle_detection
    rw [if_neg hpcol, hlook]
    dsimp only []
    by_cases hv : vcol = ""
    · rw [if_pos hv]
      obtain ⟨g, hg⟩ : ∃ g, np_gradient pos = .ok g := by
        unfold np_gradient
        rw [if_neg (by omega)]
        exact ⟨_, rfl⟩
      rw [hg]
      simp only [Except.instMonad, Except.bind, Except.pure]
      rcases hfs with rfl | ⟨q, hq, rfl⟩
      · exact ⟨.fsRequired, rfl, rfl⟩
      · dsimp only []
        by_cases hq0 : q = 0
        · rw [if_pos hq0]
          exact ⟨.fsRequired, rfl, rfl⟩
        · rw [if_neg hq0]
          have hbq := hb _ (hwn q (lt_of_le_of_ne hq hq0))
          unfold smooth_data_low_pass
          dsimp only []
          rw [hbq]
          exact ⟨.badCutoff, rfl, rfl⟩
    · rw [if_neg hv]
      simp only [Except.instMonad, Except.bind, Except.pure]
      rcases hfs with rfl | ⟨q, hq, rfl⟩
      · exact ⟨.fsRequired, rfl, rfl⟩
      · dsimp only []
        by_cases hq0 : q = 0
        · rw [if_pos hq0]
          exact ⟨.fsRequired, rfl, rfl⟩
        · rw [if_neg hq0]
          have hbq := hb _ (hwn q (lt_of_le_of_ne hq hq0))
          unfold smooth_data_low_pass
          dsimp only []
          rw [hbq]
          exact ⟨.badCutoff, rfl, rfl⟩

/-- Witness for C6 (amended), third clause: a 2-sample table with sampling
rate `-5` fails with the cutoff-validation configuration error. -/
theorem claim_C6_witness :
    ∃ e, prepare_data_for_cycle_detection butterRef ⟨[("p", [0, 1])]⟩ (some (-5)) "p" "" =
      .error e ∧ e.isConfiguration = true :=
  (claim_C6 butterRef (fun wn h => butterRef_invalid h) ⟨[("p", [0, 1])]⟩ (some (-5)) "p"
    "").2.2 [0, 1] (by simp) (by with_unfolding_all rfl) (by simp)
    (Or.inr ⟨-5, by norm_num, rfl⟩)

/-! ## Per-record session workflow (`cli.py`, body of the record loop) -/

/-- The detection parameters threaded through the interactive loop
(`detection_parameters` dict in cli.py). -/
structure DetParams where
  threshold : ℚ
  distance : ℚ
  pattern : Pattern
  signal : SignalKind
deriving DecidableEq, Repr

/-- A persisted cycle artifact (`{record}_cycles.json`): the parameters used
and the boundary indices. -/
structure Artifact where
  params : DetParams
  indices : List Nat
deriving DecidableEq, Repr

/-- The state of the persistence layer: cycle artifacts keyed by record
name, the last-parameters artifact (`last_parameters.json`) and the
append-only processing log (`processed_records.log`). -/
structure Persist where
  artifacts : List (String × Artifact)
  lastParams : Option DetParams
  log : List (String × DetParams)
deriving DecidableEq, Repr

/-- One operator input: a yes/no answer to a prompt, a numeric value, a
pattern choice, or a set of manually designated cut points. -/
inductive OpInput
  | ans (yes : Bool)
  | num (q : ℚ)
  | pat (p : Pattern)
  | pts (ps : List Nat)
deriving DecidableEq, Repr

/-- What ends the processing of one record. `abandoned` is the per-record
`except Exception` handler of cli.py (the record is skipped, the run goes
on); `stuck` means the supplied operator-input stream ran out (the real
program would block waiting for the operator). -/
inductive RecordErr
  | prep (e : PrepErr)
  | unboundLocal
deriving DecidableEq, Repr

inductive Outcome
  | persisted
  | skipped
  | abandoned (e : RecordErr)
  | stuck
deriving DecidableEq, Repr

/-- The prepared data frame handed to `detect_cycles` by cli.py. -/
def dfOf (p : PreparedSignal) : DataFrame := ⟨some p.Position, some p.Velocity⟩

/-- `manual_cutting` (cycles_utils.py): let the operator designate points;
zero points restarts; after rendering, a declined validation restarts.
Each iteration consumes at least one input, so `inputs.length` steps of
fuel never alter the observable behavior (running out of fuel and running
out of input coincide in `none`). -/
def manualCutting : Nat → List OpInput → Option (List Nat × List OpInput)
  | 0, _ => none
  | _ + 1, [] => none
  | fuel + 1, .pts ps :: rest =>
    if ps = [] then manualCutting fuel rest
    else
      match rest with
      | .ans v :: rest2 => if v then some (ps, rest2) else manualCutting fuel rest2
      | _ => none
  | _ + 1, _ => none

/-- Result of the interactive detect/adjust loop of cli.py: the final
parameter set, the value of the Python local `sep_indices` (which is `none`
when no successful detection and no manual cut ever assigned it), and the
remaining operator input. -/
inductive LoopResult
  | done (params : DetParams) (sep : Option (List Nat)) (rest : List OpInput)
  | stuck
deriving DecidableEq, Repr

/-- The `while True` detect/adjust loop of cli.py (lines 75-128): run
`detect_cycles` (a `ValueError` is caught and reported, leaving
`sep_indices` unassigned or at its previous value), ask for acceptance,
and otherwise prompt for new threshold/distance/pattern and an optional
manual cutting that exits the loop directly.  Each iteration consumes at
least one input, so fuel `inputs.length + 1` never truncates behavior. -/
def detectLoop (prep : PreparedSignal) (fs : ℚ) :
    Nat → DetParams → Option (List Nat) → List OpInput → LoopResult
  | 0, _, _, _ => .stuck
  | fuel + 1, p, sep, inputs =>
    let sep' :=
      match detect_cycles (dfOf prep) p.threshold p.distance p.pattern p.signal fs with
      | .ok v => some v
      | .error _ => sep
    match inputs with
    | .ans true :: rest => .done p sep' rest
    | .ans false :: .num t :: .num d :: .pat pt :: .ans m :: rest =>
      let p' := { p with threshold := t, distance := d, pattern := pt }
      if m then
        match manualCutting rest.length rest with
        | some (cuts, rest2) => .done p' (some cuts) rest2
        | none => .stuck
      else detectLoop prep fs fuel p' sep' rest
    | _ => .stuck

/-- The body of the per-record `for` loop of cli.py `main` (lines 53-141):
the reprocessing gate, then loading/preparing (whose outcome is passed in
as `preparedE`), the interactive loop, and on exit the three persistence
writes — or the per-record `except Exception` handler.  Reading the Python
local `sep_indices` while it was never assigned (detection always failed
and the operator accepted) raises `UnboundLocalError`, which the catch-all
turns into an abandoned record. -/
def processRecord (st : Persist) (name : String)
    (preparedE : Except PrepErr PreparedSignal) (params0 : DetParams) (fs : ℚ)
    (inputs : List OpInput) : Persist × Outcome :=
  let run : List OpInput → Persist × Outcome := fun inputs1 =>
    match preparedE with
    | .error e => (st, .abandoned (.prep e))
    | .ok prep =>
      match detectLoop prep fs (inputs1.length + 1) params0 none inputs1 with
      | .stuck => (st, .stuck)
      | .done pF sep _rest =>
        match sep with
        | none => (st, .abandoned .unboundLocal)
        | some v =>
          ({ artifacts := (name, ⟨pF, v⟩) :: st.artifacts.filter (fun kv => kv.1 != name),
             lastParams := some pF,
             log := st.log ++ [(name, pF)] }, .persisted)
  if (st.artifacts.lookup name).isSome then
    match inputs with
    | .ans y :: rest => if y then run rest else (st, .skipped)
    | _ => (st, .stuck)
  else run inputs

/-- C4 (code bug witness): on a record whose prepared signal is flat (so
`detect_cycles` fails with the "No cycles detected" `ValueError`, which is
caught and reported inside the loop), an operator who immediately accepts
makes cli.py read the never-assigned local `sep_indices`; the resulting
`UnboundLocalError` escapes to the per-record `except Exception` handler and
the record is abandoned — the workflow does not stay in the reviewing state
as the claim (and spec §4.4/§7) requires. -/
theorem claim_C4 :
    processRecord ⟨[], none, []⟩ "rec"
      (.ok ⟨[0,0,0,0,0,0,0], [0,0,0,0,0,0,0], 1⟩) ⟨1, 2, .both, .position⟩ 1
      [.ans true] =
    (⟨[], none, []⟩, .abandoned .unboundLocal) ∧
    detect_cycles (dfOf ⟨[0,0,0,0,0,0,0], [0,0,0,0,0,0,0], 1⟩) 1 2 .both .position 1 =
      .error .noCyclesDetected := by
  refine ⟨?_, ?_⟩ <;> with_unfolding_all rfl

/-- C9: when a persisted artifact already exists for the record name and the
operator declines reprocessing, the record is skipped and the persistence
layer state — cycle artifacts, last-parameters artifact and processing
log — is returned unchanged, whatever the rest of the input stream, the
prepared data, the seed parameters or the sampling rate. -/
theorem claim_C9 {st : Persist} {name : String} {pE : Except PrepErr PreparedSignal}
    {p0 : DetParams} {fs : ℚ} {rest : List OpInput}
    (h : (st.artifacts.lookup name).isSome) :
    processRecord st name pE p0 fs (.ans false :: rest) = (st, .skipped) := by
  simp [processRecord, h]

/-- Witness for C9: a state holding one artifact for record `"rec"`, with
the operator answering "no". -/
theorem claim_C9_witness :
    processRecord
      ⟨[("rec", ⟨⟨1, 2, .both, .position⟩, [0, 5]⟩)], none, []⟩ "rec"
      (.error .fsRequired) ⟨1, 2, .both, .position⟩ 1 [.ans false] =
    (⟨[("rec", ⟨⟨1, 2, .both, .position⟩, [0, 5]⟩)], none, []⟩, .skipped) :=
  claim_C9 (by with_unfolding_all rfl)

end CycleDetector
